import Mathlib

/-!
Verification of the video-generation route of the Altrd-youtube repository
(`src/app/api/generate-video/route.ts`), against its natural-language
specification.

Modelling conventions (shallow embedding of the TypeScript source):
* JavaScript strings are modelled as `List Char`.
* JavaScript numbers are modelled as `ℚ`; a possibly-NaN number is
  `Option ℚ` with `none` standing for `NaN` (every JS comparison with
  `NaN` is false, and arithmetic on `NaN` yields `NaN`, which the
  embedding reflects explicitly at each use site).
* `String.prototype.split(sep)` is `jsSplit`, `parseInt(s, 10)` is
  `jsParseInt` (leading sign and longest digit prefix; `none` = `NaN`),
  `padStart(n, '0')` is `padStartZeros`, `padEnd(3, '0')` is
  `padEndZeros`, `%` on numbers is `jsMod` (truncated remainder),
  `Math.floor` is `Int.floor`, `Math.round` is `mathRound`
  (floor of x + 1/2), `Math.max(0, x)` is `max 0 x`.
-/

set_option maxRecDepth 100000

namespace GenerateVideo

/-- JS `String.prototype.split(sep)` on a single-character separator:
`"a:b".split(':') = ["a","b"]`, `"".split(':') = [""]`,
`":".split(':') = ["",""]`. -/
def jsSplit (sep : Char) : List Char → List (List Char)
  | [] => [[]]
  | c :: rest =>
    if c = sep then [] :: jsSplit sep rest
    else
      match jsSplit sep rest with
      | [] => [[c]]
      | p :: ps => (c :: p) :: ps

/-- Value of a digit string (the longest leading run of decimal digits);
`none` when there is no leading digit, which is JS `NaN`. -/
def digitsVal (s : List Char) : Option ℕ :=
  let ds := s.takeWhile Char.isDigit
  if ds.isEmpty then none
  else some (ds.foldl (fun a c => 10 * a + (c.toNat - 48)) 0)

/-- JS `parseInt(s, 10)`: optional sign followed by the longest run of
decimal digits; `none` models `NaN` (no exception is ever thrown). -/
def jsParseInt (s : List Char) : Option ℤ :=
  match s with
  | [] => none
  | c :: rest =>
    if c = '-' then (digitsVal rest).map (fun n => -(n : ℤ))
    else if c = '+' then (digitsVal rest).map (fun n => (n : ℤ))
    else (digitsVal (c :: rest)).map (fun n => (n : ℤ))

/-- JS `padStart(n, '0')`. -/
def padStartZeros (n : ℕ) (s : List Char) : List Char :=
  List.replicate (n - s.length) '0' ++ s

/-- JS `padEnd(n, '0')`. -/
def padEndZeros (n : ℕ) (s : List Char) : List Char :=
  s ++ List.replicate (n - s.length) '0'

/-- Truncation toward zero, as in the JS `%` operator's implied division. -/
def ratTrunc (q : ℚ) : ℤ :=
  if 0 ≤ q then ⌊q⌋ else ⌈q⌉

/-- JS `%` on numbers: truncated remainder `a - b * trunc(a / b)`. -/
def jsMod (a b : ℚ) : ℚ :=
  a - b * (ratTrunc (a / b) : ℚ)

/-- JS `Math.round` (round half toward positive infinity). -/
def mathRound (q : ℚ) : ℤ :=
  ⌊q + 1 / 2⌋

/-- JS `Number.prototype.toString()` for integer-valued numbers. -/
def intToString (i : ℤ) : List Char :=
  if i < 0 then '-' :: Nat.toDigits 10 i.natAbs
  else Nat.toDigits 10 i.toNat

/-- The component-parsing stage of `timeToSeconds` (route.ts lines
159-164): split on `:`, take the last part, split that on `.`, and
`parseInt` the hour, minute, second and (end-padded) millisecond pieces.
`none` models the `NaN` that propagates into the final sum when any used
`parseInt` call returns `NaN`. -/
def timeParts (timeStr : List Char) : Option (ℤ × ℤ × ℤ × ℤ) :=
  let parts := jsSplit ':' timeStr
  let secondsParts := jsSplit '.' (parts.getLastD [])
  let hours : Option ℤ :=
    if parts.length > 2 then jsParseInt (parts.headD []) else some 0
  let minutes : Option ℤ :=
    if parts.length > 1 then jsParseInt (parts.getD (parts.length - 2) [])
    else some 0
  let seconds : Option ℤ := jsParseInt (secondsParts.headD [])
  let milliseconds : Option ℤ :=
    if secondsParts.length > 1 then
      jsParseInt (padEndZeros 3 (secondsParts.getD 1 []))
    else some 0
  match hours, minutes, seconds, milliseconds with
  | some h, some m, some sec, some ms => some (h, m, sec, ms)
  | _, _, _, _ => none

/-- `timeToSeconds` (route.ts lines 156-171).  The result is
`hours*3600 + minutes*60 + seconds + milliseconds/1000`; `none` models a
`NaN` result (the `catch` clause of the source returns 0, but `parseInt`
never throws, so that clause is unreachable for string inputs; the
`if (!timeStr) return 0` guard is the empty-string case). -/
def timeToSeconds (timeStr : List Char) : Option ℚ :=
  if timeStr = [] then some 0
  else
    (timeParts timeStr).map fun p =>
      (p.1 : ℚ) * 3600 + (p.2.1 : ℚ) * 60 + (p.2.2.1 : ℚ) + (p.2.2.2 : ℚ) / 1000

/-- The numeric stage of `formatTimestamp` (route.ts lines 175-179):
hours, minutes, whole seconds (by `Math.floor` and `%`) and rounded
milliseconds. -/
def formatFields (seconds : ℚ) : ℤ × ℤ × ℤ × ℤ :=
  let hours : ℤ := ⌊seconds / 3600⌋
  let minutes : ℤ := ⌊jsMod seconds 3600 / 60⌋
  let remainingSeconds : ℚ := jsMod seconds 60
  let wholeSeconds : ℤ := ⌊remainingSeconds⌋
  let milliseconds : ℤ := mathRound ((remainingSeconds - (wholeSeconds : ℚ)) * 1000)
  (hours, minutes, wholeSeconds, milliseconds)

/-- The string-template stage of `formatTimestamp` (route.ts line 181):
zero-padded `HH:MM:SS.mmm`. -/
def tsRender (h m s ms : ℤ) : List Char :=
  padStartZeros 2 (intToString h) ++ ':' ::
    (padStartZeros 2 (intToString m) ++ ':' ::
      (padStartZeros 2 (intToString s) ++ '.' ::
        padStartZeros 3 (intToString ms)))

/-- `formatTimestamp` (route.ts lines 174-182). -/
def formatTimestamp (seconds : ℚ) : List Char :=
  tsRender (formatFields seconds).1 (formatFields seconds).2.1
    (formatFields seconds).2.2.1 (formatFields seconds).2.2.2

/-- A raw caption from the request body (route.ts lines 30-34).  The
source field `end` is called `stop` here because `end` is a Lean
keyword. -/
structure Caption where
  start : List Char
  stop : List Char
  text : List Char
deriving DecidableEq, Inhabited

/-- The filter callback of `validatedCaptions` (route.ts lines 256-260):
`captionStart >= 0 && captionEnd <= clipDuration && captionStart <
captionEnd` on the clip-relative parsed times.  Every comparison is false
when either parsed timestamp is `NaN` (`none`). -/
def captionValid (startTime clipDuration : ℚ) (caption : Caption) : Bool :=
  match timeToSeconds caption.start, timeToSeconds caption.stop with
  | some s, some e =>
    decide (s - startTime ≥ 0) && decide (e - startTime ≤ clipDuration)
      && decide (s - startTime < e - startTime)
  | _, _ => false

/-- `validatedCaptions` (route.ts lines 252-264): when the request's
caption array is nonempty, keep exactly the captions passing
`captionValid`.  No sorting, clamping, or text inspection occurs. -/
def validatedCaptions (captions : List Caption) (startTime endTime : ℚ) :
    List Caption :=
  if captions.length > 0 then
    let clipDuration := endTime - startTime
    captions.filter (captionValid startTime clipDuration)
  else []

/-- One entry of the `captionImages` array (route.ts lines 333, 357-362). -/
structure CaptionImage where
  path : List Char
  startTime : ℚ
  endTime : ℚ
  text : List Char
deriving DecidableEq, Inhabited

/-- The `captionImages` array built from `validatedCaptions` (route.ts
lines 332-365): the i-th validated caption yields the image file
`caption_i.png` together with its clamped clip-relative window.  The
`getD 0` stands for the unreachable `NaN` branch: every element of
`validatedCaptions` parsed successfully when it passed the filter. -/
def captionImages (validated : List Caption) (startTime : ℚ) :
    List CaptionImage :=
  validated.enum.map fun p =>
    { path := "caption_".data ++ Nat.toDigits 10 p.1 ++ ".png".data
      startTime := max 0 ((timeToSeconds p.2.start).getD 0 - startTime)
      endTime := max 0 ((timeToSeconds p.2.stop).getD 0 - startTime)
      text := p.2.text }

/-- A rectangle from the request (route.ts lines 218-220). -/
structure Rect where
  x : ℚ
  y : ℚ
  width : ℚ
  height : ℚ
deriving DecidableEq

/-- One filter-graph node, one constructor per `filters.push` site of the
source (route.ts lines 421, 424, 436, 439, 442, 456, 461, 465); the
fields are exactly the values interpolated into the pushed filter
string. -/
inductive FilterNode where
  | scaleNode (scale : List Char) (outPad : List Char)
  | colorSource (color : List Char) (w h : ℕ) (d : ℚ) (outPad : List Char)
  | overlayCentered (basePad overPad : List Char) (y : ℚ) (outPad : List Char)
  | overlayImage (basePad : List Char) (inputIndex : ℕ) (x y : ℚ)
      (outPad : List Char)
  | captionOverlay (basePad : List Char) (inputIndex : ℕ) (x y : ℚ)
      (enableStart enableEnd : ℚ) (outPad : List Char)
  | nullPass (inPad outPad : List Char)
  | acopy (outPad : List Char)
deriving DecidableEq

/-- The caption-overlay loop (route.ts lines 450-459): `forEach` with
index over `captionImages`, threading `currentStream`; the node for index
`i` reads engine input `3 + i` and writes pad `with_caption_i`, except the
last, which writes `final_video`. -/
def captionNodes (capX capY : ℚ) :
    List CaptionImage → ℕ → ℕ → List Char → List FilterNode
  | [], _, _, _ => []
  | img :: rest, index, total, currentStream =>
    let nextStream :=
      if index = total - 1 then "final_video".data
      else "with_caption_".data ++ Nat.toDigits 10 index
    FilterNode.captionOverlay currentStream (3 + index) capX capY
        img.startTime img.endTime nextStream ::
      captionNodes capX capY rest (index + 1) total nextStream

/-- The complete `filters` array (route.ts lines 418-465): scale,
background, base/title/credit overlays, then either the caption-overlay
chain or the `null` rename, then the audio copy.  `videoYPosition` is the
value computed at lines 427-429 (not involved in the verified claims). -/
def buildFilters (captionImgs : List CaptionImage) (scale : List Char)
    (canvasW canvasH : ℕ) (bgColor : List Char) (duration : ℚ)
    (videoYPosition : ℚ) (titlePos creditPos captionPos : Rect) :
    List FilterNode :=
  [FilterNode.scaleNode scale "processed_video_base".data,
   FilterNode.colorSource bgColor canvasW canvasH duration "bg".data,
   FilterNode.overlayCentered "bg".data "processed_video_base".data
     videoYPosition "base".data,
   FilterNode.overlayImage "base".data 1 titlePos.x titlePos.y
     "with_title".data,
   FilterNode.overlayImage "with_title".data 2 creditPos.x creditPos.y
     "with_overlays".data] ++
  (if captionImgs.length > 0 then
    captionNodes captionPos.x captionPos.y captionImgs 0 captionImgs.length
      "with_overlays".data
  else
    [FilterNode.nullPass "with_overlays".data "final_video".data]) ++
  [FilterNode.acopy "final_audio".data]

/-- The order in which media files are handed to the external engine
(route.ts lines 472-480): the downloaded video, the title image, the
credit image, then each caption image in `captionImages` order. -/
def inputManifest (captionImgs : List CaptionImage) : List (List Char) :=
  "downloaded_video.mp4".data :: "title.png".data :: "credit.png".data ::
    captionImgs.map (·.path)

/-- `startTime` validation (route.ts line 224): a missing, non-numeric,
`NaN` or negative `startTime` is replaced by 0. -/
def requestStartTime (rawStartTime : Option ℚ) : ℚ :=
  match rawStartTime with
  | some s => if s ≥ 0 then s else 0
  | none => 0

/-- `endTime` validation (route.ts line 225): a missing, non-numeric,
`NaN`, or not-greater-than-`startTime` `endTime` is replaced by
`startTime + 30`. -/
def requestEndTime (rawEndTime : Option ℚ) (startTime : ℚ) : ℚ :=
  match rawEndTime with
  | some e => if e > startTime then e else startTime + 30
  | none => startTime + 30

/-- The early-return validation of the POST handler (route.ts lines
223-241): resolve `startTime`/`endTime`, reject a missing or empty
`youtubeUrl`, reject a clip shorter than one second, otherwise continue
with the resolved time range. -/
def validateRequest (youtubeUrl : Option (List Char))
    (rawStartTime rawEndTime : Option ℚ) : Except (List Char) (ℚ × ℚ) :=
  let startTime := requestStartTime rawStartTime
  let endTime := requestEndTime rawEndTime startTime
  if youtubeUrl = none ∨ youtubeUrl = some [] then
    Except.error "Invalid YouTube URL provided".data
  else if endTime - startTime < 1 then
    Except.error "Clip duration must be at least 1 second".data
  else
    Except.ok (startTime, endTime)

/-! ### Behaviour of the JS string primitives -/

theorem jsSplit_cons_self (sep : Char) (rest : List Char) :
    jsSplit sep (sep :: rest) = [] :: jsSplit sep rest := by
  simp [jsSplit]

theorem jsSplit_cons_of_ne (sep c : Char) (rest : List Char) (h : ¬c = sep) :
    jsSplit sep (c :: rest) =
      match jsSplit sep rest with
      | [] => [[c]]
      | p :: ps => (c :: p) :: ps := by
  simp [jsSplit, h]

/-- A string without the separator splits into itself alone. -/
theorem jsSplit_of_not_mem {sep : Char} {l : List Char} (h : sep ∉ l) :
    jsSplit sep l = [l] := by
  induction l with
  | nil => rfl
  | cons c rest ih =>
    have hc : ¬c = sep := fun e => h (by simp [e])
    have hr : sep ∉ rest := fun hm => h (List.mem_cons_of_mem _ hm)
    rw [jsSplit_cons_of_ne sep c rest hc, ih hr]

/-- Splitting peels off a separator-free prefix. -/
theorem jsSplit_append_sep {sep : Char} {l₁ : List Char} (l₂ : List Char)
    (h : sep ∉ l₁) :
    jsSplit sep (l₁ ++ sep :: l₂) = l₁ :: jsSplit sep l₂ := by
  induction l₁ with
  | nil => simpa using jsSplit_cons_self sep l₂
  | cons c l₁ ih =>
    have hc : ¬c = sep := fun e => h (by simp [e])
    have hr : sep ∉ l₁ := fun hm => h (List.mem_cons_of_mem _ hm)
    rw [List.cons_append, jsSplit_cons_of_ne sep c _ hc, ih hr]

theorem takeWhile_eq_self_of_all {p : Char → Bool} :
    ∀ {l : List Char}, (∀ x ∈ l, p x) → l.takeWhile p = l
  | [], _ => rfl
  | c :: rest, h => by
    have hc : p c := h c (List.mem_cons_self c rest)
    simp [List.takeWhile, hc, takeWhile_eq_self_of_all fun x hx =>
      h x (List.mem_cons_of_mem _ hx)]

theorem takeWhile_append_nondigit {p : Char → Bool} {c : Char}
    (l₂ : List Char) (hc : ¬p c) :
    ∀ {l₁ : List Char}, (∀ x ∈ l₁, p x) →
      (l₁ ++ c :: l₂).takeWhile p = l₁
  | [], _ => by simp [List.takeWhile, hc]
  | x :: l₁, h => by
    have hx : p x := h x (List.mem_cons_self x l₁)
    simp [List.takeWhile, hx,
      takeWhile_append_nondigit l₂ hc fun y hy => h y (List.mem_cons_of_mem _ hy)]

/-- The digit value of a string ignores everything from the first
non-digit on. -/
theorem digitsVal_append_of_nondigit {l₁ : List Char} {c : Char}
    (l₂ : List Char) (h₁ : ∀ x ∈ l₁, x.isDigit) (hc : ¬c.isDigit) :
    digitsVal (l₁ ++ c :: l₂) = digitsVal l₁ := by
  unfold digitsVal
  rw [takeWhile_append_nondigit l₂ hc h₁, takeWhile_eq_self_of_all h₁]

/-- `parseInt` of a digit string followed by a non-digit and anything
else equals `parseInt` of the digit string: parsing stops at the first
non-digit. -/
theorem jsParseInt_append_of_nondigit {l₁ : List Char} {c : Char}
    (l₂ : List Char) (hne : l₁ ≠ []) (h₁ : ∀ x ∈ l₁, x.isDigit)
    (hc : ¬c.isDigit) :
    jsParseInt (l₁ ++ c :: l₂) = jsParseInt l₁ := by
  cases l₁ with
  | nil => exact absurd rfl hne
  | cons x xs =>
    have hx : x.isDigit := h₁ x (List.mem_cons_self x xs)
    have hx1 : ¬x = '-' := by rintro rfl; exact absurd hx (by decide)
    have hx2 : ¬x = '+' := by rintro rfl; exact absurd hx (by decide)
    simp only [List.cons_append, jsParseInt, if_neg hx1, if_neg hx2]
    rw [show x :: (xs ++ c :: l₂) = (x :: xs) ++ c :: l₂ from rfl,
      digitsVal_append_of_nondigit l₂ h₁ hc]

/-! ### Digit-string facts about the zero-padded clock fields -/

theorem pad2_parse : ∀ h : ℕ, h < 100 →
    jsParseInt (padStartZeros 2 (intToString (h : ℤ))) = some (h : ℤ) := by
  decide

theorem pad2_digits : ∀ h : ℕ, h < 100 →
    ∀ x ∈ padStartZeros 2 (intToString (h : ℤ)), x.isDigit := by
  decide

theorem pad2_ne_nil : ∀ h : ℕ, h < 100 →
    padStartZeros 2 (intToString (h : ℤ)) ≠ [] := by
  decide

theorem pad3_parse : ∀ m : ℕ, m < 1000 →
    jsParseInt (padStartZeros 3 (intToString (m : ℤ))) = some (m : ℤ) := by
  decide

theorem pad3_digits : ∀ m : ℕ, m < 1000 →
    ∀ x ∈ padStartZeros 3 (intToString (m : ℤ)), x.isDigit := by
  decide

theorem pad3_padEnd : ∀ m : ℕ, m < 1000 →
    padEndZeros 3 (padStartZeros 3 (intToString (m : ℤ))) =
      padStartZeros 3 (intToString (m : ℤ)) := by
  decide

theorem not_mem_of_digits {l : List Char} {c : Char}
    (h : ∀ x ∈ l, x.isDigit) (hc : ¬c.isDigit) : c ∉ l :=
  fun hm => hc (h c hm)

/-! ### Parsing a rendered timestamp recovers the clock fields -/

theorem timeParts_tsRender (H M S ms : ℕ) (hH : H < 100) (hM : M < 100)
    (hS : S < 100) (hms : ms < 1000) :
    timeParts (tsRender (H : ℤ) (M : ℤ) (S : ℤ) (ms : ℤ)) =
      some ((H : ℤ), (M : ℤ), (S : ℤ), (ms : ℤ)) := by
  have hd : ¬('.' : Char).isDigit := by decide
  have hcolon : ¬(':' : Char).isDigit := by decide
  set A := padStartZeros 2 (intToString (H : ℤ)) with hA_def
  set B := padStartZeros 2 (intToString (M : ℤ)) with hB_def
  set C := padStartZeros 2 (intToString (S : ℤ)) with hC_def
  set D := padStartZeros 3 (intToString (ms : ℤ)) with hD_def
  have hA : ∀ x ∈ A, x.isDigit := by rw [hA_def]; exact pad2_digits H hH
  have hB : ∀ x ∈ B, x.isDigit := by rw [hB_def]; exact pad2_digits M hM
  have hC : ∀ x ∈ C, x.isDigit := by rw [hC_def]; exact pad2_digits S hS
  have hD : ∀ x ∈ D, x.isDigit := by rw [hD_def]; exact pad3_digits ms hms
  have hCne : ':' ∉ C ++ '.' :: D := by
    simp only [List.mem_append, List.mem_cons]
    rintro (h | h | h)
    · exact hcolon (hC _ h)
    · exact absurd h (by decide)
    · exact hcolon (hD _ h)
  have hsplit1 : jsSplit ':' (tsRender (H : ℤ) (M : ℤ) (S : ℤ) (ms : ℤ)) =
      [A, B, C ++ '.' :: D] := by
    rw [show tsRender (H : ℤ) (M : ℤ) (S : ℤ) (ms : ℤ) =
        A ++ ':' :: (B ++ ':' :: (C ++ '.' :: D)) from by
      rw [hA_def, hB_def, hC_def, hD_def]; rfl]
    rw [jsSplit_append_sep _ (not_mem_of_digits hA hcolon),
      jsSplit_append_sep _ (not_mem_of_digits hB hcolon),
      jsSplit_of_not_mem hCne]
  have hsplit2 : jsSplit '.' (C ++ '.' :: D) = [C, D] := by
    rw [jsSplit_append_sep _ (not_mem_of_digits hC hd),
      jsSplit_of_not_mem (not_mem_of_digits hD hd)]
  have hparseA : jsParseInt A = some (H : ℤ) := by
    rw [hA_def]; exact pad2_parse H hH
  have hparseB : jsParseInt B = some (M : ℤ) := by
    rw [hB_def]; exact pad2_parse M hM
  have hparseC : jsParseInt C = some (S : ℤ) := by
    rw [hC_def]; exact pad2_parse S hS
  have hparseD : jsParseInt (padEndZeros 3 D) = some (ms : ℤ) := by
    rw [hD_def, pad3_padEnd ms hms]; exact pad3_parse ms hms
  simp only [timeParts]
  rw [hsplit1]
  rw [show List.getLastD [A, B, C ++ '.' :: D] ([] : List Char) =
    C ++ '.' :: D from rfl]
  rw [hsplit2]
  rw [show ([A, B, C ++ '.' :: D] : List (List Char)).length = 3 from rfl,
    show ([C, D] : List (List Char)).length = 2 from rfl]
  norm_num [List.headD, List.getD, List.get?, hparseA, hparseB, hparseC,
    hparseD]

theorem tsRender_ne_nil (h m s ms : ℤ) : tsRender h m s ms ≠ [] := by
  unfold tsRender
  intro he
  have := congrArg List.length he
  simp [List.length_append] at this

theorem timeToSeconds_tsRender (H M S ms : ℕ) (hH : H < 100) (hM : M < 100)
    (hS : S < 100) (hms : ms < 1000) :
    timeToSeconds (tsRender (H : ℤ) (M : ℤ) (S : ℤ) (ms : ℤ)) =
      some ((H : ℚ) * 3600 + (M : ℚ) * 60 + (S : ℚ) + (ms : ℚ) / 1000) := by
  unfold timeToSeconds
  rw [if_neg (tsRender_ne_nil _ _ _ _), timeParts_tsRender H M S ms hH hM hS hms]
  refine congrArg some ?_
  push_cast
  ring

/-! ### The numeric fields of a formatted millisecond-exact time -/

theorem intFloor_natCast_div (a b : ℕ) :
    ⌊(a : ℚ) / (b : ℚ)⌋ = ((a / b : ℕ) : ℤ) := by
  rw [← Int.natCast_floor_eq_floor
    (div_nonneg (Nat.cast_nonneg a) (Nat.cast_nonneg b)),
    Nat.floor_div_eq_div]

theorem ratTrunc_of_nonneg {q : ℚ} (h : 0 ≤ q) : ratTrunc q = ⌊q⌋ :=
  if_pos h

theorem jsMod_natCast_div_thousand (n D : ℕ) :
    jsMod ((n : ℚ) / 1000) (D : ℚ) = ((n % (1000 * D) : ℕ) : ℚ) / 1000 := by
  rcases Nat.eq_zero_or_pos D with hD | hD
  · subst hD
    simp [jsMod, ratTrunc, Int.floor_zero]
  have hpos : 0 < 1000 * D := by positivity
  obtain ⟨q, r, hrlt, rfl⟩ : ∃ q r, r < 1000 * D ∧ 1000 * D * q + r = n :=
    ⟨n / (1000 * D), n % (1000 * D), Nat.mod_lt _ hpos, Nat.div_add_mod n _⟩
  have hdiv : (1000 * D * q + r) / (1000 * D) = q := by
    rw [Nat.mul_add_div hpos, Nat.div_eq_of_lt hrlt, add_zero]
  have hmod : (1000 * D * q + r) % (1000 * D) = r := by
    rw [Nat.mul_add_mod, Nat.mod_eq_of_lt hrlt]
  unfold jsMod
  rw [ratTrunc_of_nonneg (by positivity), div_div,
    show ((1000 : ℚ) * (D : ℚ)) = ((1000 * D : ℕ) : ℚ) by push_cast; ring,
    intFloor_natCast_div, hdiv, hmod]
  push_cast
  field_simp
  ring

theorem mathRound_natCast (k : ℕ) : mathRound ((k : ℚ)) = (k : ℤ) := by
  unfold mathRound
  rw [show ((k : ℚ) + 1 / 2) = ((k : ℤ) : ℚ) + 1 / 2 by push_cast; ring,
    Int.floor_int_add]
  norm_num

/-- `formatFields` of a millisecond-exact number of seconds `n/1000`
yields the hour, minute, second and millisecond fields computed by
natural division and remainder on `n`. -/
theorem formatFields_natMs (n : ℕ) :
    formatFields ((n : ℚ) / 1000) =
      (((n / 3600000 : ℕ) : ℤ), ((n % 3600000 / 60000 : ℕ) : ℤ),
        ((n % 60000 / 1000 : ℕ) : ℤ), ((n % 1000 : ℕ) : ℤ)) := by
  have e2 : jsMod ((n : ℚ) / 1000) 3600 = ((n % 3600000 : ℕ) : ℚ) / 1000 := by
    simpa using jsMod_natCast_div_thousand n 3600
  have e4 : jsMod ((n : ℚ) / 1000) 60 = ((n % 60000 : ℕ) : ℚ) / 1000 := by
    simpa using jsMod_natCast_div_thousand n 60
  have e1 : ⌊(n : ℚ) / 1000 / 3600⌋ = ((n / 3600000 : ℕ) : ℤ) := by
    rw [div_div, show ((1000 : ℚ) * 3600) = ((3600000 : ℕ) : ℚ) by norm_num,
      intFloor_natCast_div]
  have e3 : ⌊((n % 3600000 : ℕ) : ℚ) / 1000 / 60⌋ =
      ((n % 3600000 / 60000 : ℕ) : ℤ) := by
    rw [div_div, show ((1000 : ℚ) * 60) = ((60000 : ℕ) : ℚ) by norm_num,
      intFloor_natCast_div]
  have e5 : ⌊((n % 60000 : ℕ) : ℚ) / 1000⌋ = ((n % 60000 / 1000 : ℕ) : ℤ) := by
    rw [show ((1000 : ℚ)) = ((1000 : ℕ) : ℚ) by norm_num, intFloor_natCast_div]
  have e6 : (((n % 60000 : ℕ) : ℚ) / 1000 -
      (((n % 60000 / 1000 : ℕ) : ℤ) : ℚ)) * 1000 = ((n % 1000 : ℕ) : ℚ) := by
    have hid : n % 60000 = 1000 * (n % 60000 / 1000) + n % 1000 := by omega
    rw [show ((n % 60000 : ℕ) : ℚ) =
      ((1000 * (n % 60000 / 1000) + n % 1000 : ℕ) : ℚ) from by
        exact_mod_cast congrArg (Nat.cast (R := ℚ)) hid]
    generalize n % 60000 / 1000 = k
    generalize n % 1000 = r
    push_cast
    ring
  rw [show formatFields ((n : ℚ) / 1000) =
      (⌊(n : ℚ) / 1000 / 3600⌋, ⌊jsMod ((n : ℚ) / 1000) 3600 / 60⌋,
        ⌊jsMod ((n : ℚ) / 1000) 60⌋,
        mathRound ((jsMod ((n : ℚ) / 1000) 60 -
          ((⌊jsMod ((n : ℚ) / 1000) 60⌋ : ℤ) : ℚ)) * 1000)) from rfl]
  rw [e2, e4, e1, e3, e5, e6, mathRound_natCast]

/-- Evaluation of `timeToSeconds` from an evaluated `timeParts`. -/
theorem timeToSeconds_eval (l : List Char) (h m s ms : ℤ) (hne : l ≠ [])
    (hp : timeParts l = some (h, m, s, ms)) :
    timeToSeconds l =
      some ((h : ℚ) * 3600 + (m : ℚ) * 60 + (s : ℚ) + (ms : ℚ) / 1000) := by
  unfold timeToSeconds
  rw [if_neg hne, hp]
  rfl

/-- Claim C6: for every `s` in `[0, 86400)` that is an exact multiple of
one millisecond (written `n / 1000` with `n < 86400000`),
`formatTimestamp (timeToSeconds (formatTimestamp s)) = formatTimestamp s`;
the parse of the formatted string is never `NaN`, so the round trip is
stated through `Option.map`. -/
theorem C6_timestamp_roundtrip (n : ℕ) (hn : n < 86400000) :
    (timeToSeconds (formatTimestamp ((n : ℚ) / 1000))).map formatTimestamp =
      some (formatTimestamp ((n : ℚ) / 1000)) := by
  have hfmt : formatTimestamp ((n : ℚ) / 1000) =
      tsRender ((n / 3600000 : ℕ) : ℤ) ((n % 3600000 / 60000 : ℕ) : ℤ)
        ((n % 60000 / 1000 : ℕ) : ℤ) ((n % 1000 : ℕ) : ℤ) := by
    unfold formatTimestamp
    rw [formatFields_natMs]
  have hH : n / 3600000 < 100 := by omega
  have hM : n % 3600000 / 60000 < 100 := by omega
  have hS : n % 60000 / 1000 < 100 := by omega
  have hms : n % 1000 < 1000 := by omega
  have hparse : timeToSeconds (formatTimestamp ((n : ℚ) / 1000)) =
      some ((n : ℚ) / 1000) := by
    rw [hfmt, timeToSeconds_tsRender _ _ _ _ hH hM hS hms]
    refine congrArg some ?_
    have hid : 3600000 * (n / 3600000) + 60000 * (n % 3600000 / 60000) +
        1000 * (n % 60000 / 1000) + n % 1000 = n := by omega
    rw [show (n : ℚ) = ((3600000 * (n / 3600000) +
        60000 * (n % 3600000 / 60000) + 1000 * (n % 60000 / 1000) +
        n % 1000 : ℕ) : ℚ) from by
      exact_mod_cast congrArg (Nat.cast (R := ℚ)) hid.symm]
    generalize n / 3600000 = a
    generalize n % 3600000 / 60000 = b
    generalize n % 60000 / 1000 = c
    generalize n % 1000 = d
    push_cast
    ring
  rw [hparse]
  rfl

/-- Witness for C6 at `s = 3723.456` (01:02:03.456). -/
theorem C6_timestamp_roundtrip_witness :
    (timeToSeconds (formatTimestamp (((3723456 : ℕ) : ℚ) / 1000))).map
        formatTimestamp =
      some (formatTimestamp (((3723456 : ℕ) : ℚ) / 1000)) :=
  C6_timestamp_roundtrip 3723456 (by norm_num)

/-- Claim C7 counterexample: `timeToSeconds` does not treat `,` as a
fractional separator — parsing `"00:01:02,500"` yields 62 (the fraction
is dropped), not the 62.5 produced for `"00:01:02.500"`. -/
theorem C7_comma_counterexample :
    ¬timeToSeconds "00:01:02,500".data = timeToSeconds "00:01:02.500".data := by
  rw [timeToSeconds_eval _ 0 1 2 0 (by decide) (by decide),
    timeToSeconds_eval _ 0 1 2 500 (by decide) (by decide)]
  intro hcontra
  have := Option.some.inj hcontra
  norm_num at this

/-- Claim C7 as amended: for a well-formed `HH:MM:SS,mmm` timestamp,
`timeToSeconds` returns only the whole-second value `H*3600 + M*60 + S`;
the split is on `.` alone, so everything from the `,` on is discarded by
`parseInt`. -/
theorem C7_comma_drops_fraction (H M S ms : ℕ) (hH : H < 100) (hM : M < 100)
    (hS : S < 100) (hms : ms < 1000) :
    timeToSeconds (padStartZeros 2 (intToString (H : ℤ)) ++ ':' ::
        (padStartZeros 2 (intToString (M : ℤ)) ++ ':' ::
          (padStartZeros 2 (intToString (S : ℤ)) ++ ',' ::
            padStartZeros 3 (intToString (ms : ℤ))))) =
      some ((H : ℚ) * 3600 + (M : ℚ) * 60 + (S : ℚ)) := by
  have hcomma : ¬(',' : Char).isDigit := by decide
  have hd : ¬('.' : Char).isDigit := by decide
  have hcolon : ¬(':' : Char).isDigit := by decide
  set A := padStartZeros 2 (intToString (H : ℤ)) with hA_def
  set B := padStartZeros 2 (intToString (M : ℤ)) with hB_def
  set C := padStartZeros 2 (intToString (S : ℤ)) with hC_def
  set D := padStartZeros 3 (intToString (ms : ℤ)) with hD_def
  have hA : ∀ x ∈ A, x.isDigit := by rw [hA_def]; exact pad2_digits H hH
  have hB : ∀ x ∈ B, x.isDigit := by rw [hB_def]; exact pad2_digits M hM
  have hC : ∀ x ∈ C, x.isDigit := by rw [hC_def]; exact pad2_digits S hS
  have hD : ∀ x ∈ D, x.isDigit := by rw [hD_def]; exact pad3_digits ms hms
  have hCne : ':' ∉ C ++ ',' :: D := by
    simp only [List.mem_append, List.mem_cons]
    rintro (h | h | h)
    · exact hcolon (hC _ h)
    · exact absurd h (by decide)
    · exact hcolon (hD _ h)
  have hCnd : '.' ∉ C ++ ',' :: D := by
    simp only [List.mem_append, List.mem_cons]
    rintro (h | h | h)
    · exact hd (hC _ h)
    · exact absurd h (by decide)
    · exact hd (hD _ h)
  have hsplit1 : jsSplit ':' (A ++ ':' :: (B ++ ':' :: (C ++ ',' :: D))) =
      [A, B, C ++ ',' :: D] := by
    rw [jsSplit_append_sep _ (not_mem_of_digits hA hcolon),
      jsSplit_append_sep _ (not_mem_of_digits hB hcolon),
      jsSplit_of_not_mem hCne]
  have hsplit2 : jsSplit '.' (C ++ ',' :: D) = [C ++ ',' :: D] :=
    jsSplit_of_not_mem hCnd
  have hCnil : C ≠ [] := by rw [hC_def]; exact pad2_ne_nil S hS
  have hparseA : jsParseInt A = some (H : ℤ) := by
    rw [hA_def]; exact pad2_parse H hH
  have hparseB : jsParseInt B = some (M : ℤ) := by
    rw [hB_def]; exact pad2_parse M hM
  have hparseC : jsParseInt (C ++ ',' :: D) = some (S : ℤ) := by
    rw [jsParseInt_append_of_nondigit D hCnil hC hcomma, hC_def]
    exact pad2_parse S hS
  have hne : A ++ ':' :: (B ++ ':' :: (C ++ ',' :: D)) ≠ [] := by
    intro he
    have := congrArg List.length he
    simp [List.length_append] at this
  have hp : timeParts (A ++ ':' :: (B ++ ':' :: (C ++ ',' :: D))) =
      some ((H : ℤ), (M : ℤ), (S : ℤ), 0) := by
    simp only [timeParts]
    rw [hsplit1]
    rw [show List.getLastD [A, B, C ++ ',' :: D] ([] : List Char) =
      C ++ ',' :: D from rfl]
    rw [hsplit2]
    rw [show ([A, B, C ++ ',' :: D] : List (List Char)).length = 3 from rfl,
      show ([C ++ ',' :: D] : List (List Char)).length = 1 from rfl]
    norm_num [List.headD, List.getD, List.get?, hparseA, hparseB, hparseC]
  rw [timeToSeconds_eval _ (H : ℤ) (M : ℤ) (S : ℤ) 0 hne hp]
  refine congrArg some ?_
  push_cast
  ring

/-- Witness for the amended C7 at `"00:01:02,500"`. -/
theorem C7_comma_drops_fraction_witness :
    timeToSeconds (padStartZeros 2 (intToString ((0 : ℕ) : ℤ)) ++ ':' ::
        (padStartZeros 2 (intToString ((1 : ℕ) : ℤ)) ++ ':' ::
          (padStartZeros 2 (intToString ((2 : ℕ) : ℤ)) ++ ',' ::
            padStartZeros 3 (intToString ((500 : ℕ) : ℤ))))) =
      some (((0 : ℕ) : ℚ) * 3600 + ((1 : ℕ) : ℚ) * 60 + ((2 : ℕ) : ℚ)) :=
  C7_comma_drops_fraction 0 1 2 500 (by norm_num) (by norm_num) (by norm_num)
    (by norm_num)

/-- Claim C8: `timeToSeconds` on the non-timestamp string `"abc"` is `NaN`
(`none` in this embedding), not 0 — `parseInt` returns `NaN` without
throwing, so the `catch` clause that would return 0 never runs. -/
theorem C8_unparsable_is_NaN : timeToSeconds "abc".data = none := by
  unfold timeToSeconds
  rw [if_neg (by decide), show timeParts "abc".data = none from by decide]
  rfl

/-! ### The caption validator -/

theorem captionValid_iff (st d : ℚ) (c : Caption) :
    captionValid st d c = true ↔
      ∃ s e, timeToSeconds c.start = some s ∧ timeToSeconds c.stop = some e ∧
        s - st ≥ 0 ∧ e - st ≤ d ∧ s - st < e - st := by
  unfold captionValid
  cases h1 : timeToSeconds c.start with
  | none =>
    simp only [Bool.false_eq_true, false_iff]
    rintro ⟨s, e, hs, -⟩
    exact Option.noConfusion hs
  | some s =>
    cases h2 : timeToSeconds c.stop with
    | none =>
      simp only [Bool.false_eq_true, false_iff]
      rintro ⟨s', e, -, he, -⟩
      exact Option.noConfusion he
    | some e =>
      simp only [Bool.and_eq_true, decide_eq_true_eq]
      constructor
      · rintro ⟨⟨ha, hb⟩, hc⟩
        exact ⟨s, e, rfl, rfl, ha, hb, hc⟩
      · rintro ⟨s', e', hs', he', ha, hb, hc⟩
        obtain rfl := Option.some.inj hs'
        obtain rfl := Option.some.inj he'
        exact ⟨⟨ha, hb⟩, hc⟩

/-- The validator is an order-preserving filter: its output is a sublist
of the request's caption array. -/
theorem validatedCaptions_sublist (captions : List Caption) (st et : ℚ) :
    (validatedCaptions captions st et).Sublist captions := by
  unfold validatedCaptions
  by_cases hlen : captions.length > 0
  · rw [if_pos hlen]
    exact List.filter_sublist captions
  · rw [if_neg hlen]
    exact List.nil_sublist captions

theorem mem_validatedCaptions_iff (captions : List Caption) (st et : ℚ)
    (c : Caption) :
    c ∈ validatedCaptions captions st et ↔
      c ∈ captions ∧ ∃ s e, timeToSeconds c.start = some s ∧
        timeToSeconds c.stop = some e ∧ s - st ≥ 0 ∧ e - st ≤ et - st ∧
        s - st < e - st := by
  unfold validatedCaptions
  by_cases hlen : captions.length > 0
  · rw [if_pos hlen, List.mem_filter, captionValid_iff]
  · rw [if_neg hlen]
    have : captions = [] := List.length_eq_zero.mp (by omega)
    subst this
    simp

/-- Claim C3: for every caption list, `startTime` and `endTime`, every
caption retained in `validatedCaptions` has parsed timestamps satisfying
`0 ≤ start < end ≤ clipDuration` after subtracting `startTime`, where
`clipDuration = endTime - startTime`. -/
theorem C3_validated_in_range (captions : List Caption) (startTime endTime : ℚ)
    (c : Caption) (hc : c ∈ validatedCaptions captions startTime endTime) :
    ∃ s e, timeToSeconds c.start = some s ∧ timeToSeconds c.stop = some e ∧
      0 ≤ s - startTime ∧ s - startTime < e - startTime ∧
      e - startTime ≤ endTime - startTime := by
  obtain ⟨-, s, e, hs, he, h1, h2, h3⟩ :=
    (mem_validatedCaptions_iff captions startTime endTime c).mp hc
  exact ⟨s, e, hs, he, h1, h3, h2⟩

/-- Witness for C3: the caption 1s→2s of a 10-second clip starting at 0. -/
theorem C3_validated_in_range_witness :
    ∃ s e,
      timeToSeconds (Caption.mk "00:00:01".data "00:00:02".data "hi".data).start
          = some s ∧
        timeToSeconds (Caption.mk "00:00:01".data "00:00:02".data "hi".data).stop
          = some e ∧
        0 ≤ s - 0 ∧ s - 0 < e - 0 ∧ e - 0 ≤ 10 - 0 := by
  refine C3_validated_in_range
    [Caption.mk "00:00:01".data "00:00:02".data "hi".data] 0 10 _ ?_
  rw [mem_validatedCaptions_iff]
  refine ⟨by simp, 1, 2, ?_, ?_, by norm_num, by norm_num, by norm_num⟩
  · have := timeToSeconds_eval "00:00:01".data 0 0 1 0 (by decide) (by decide)
    rw [this]
    norm_num
  · have := timeToSeconds_eval "00:00:02".data 0 0 2 0 (by decide) (by decide)
    rw [this]
    norm_num

/-- Claim C4 counterexample: a caption whose clip-relative start is
negative but whose end is positive is dropped, not kept with its start
clamped to 0: with `startTime = 10`, `endTime = 20`, the caption
`[00:00:05, 00:00:15]` (clip-relative `[-5, 5]`) is removed. -/
theorem C4_negative_start_dropped :
    validatedCaptions [Caption.mk "00:00:05".data "00:00:15".data "x".data]
      10 20 = [] := by
  rw [List.eq_nil_iff_forall_not_mem]
  intro c hc
  rw [mem_validatedCaptions_iff] at hc
  obtain ⟨hmem, s, e, hs, he, h1, -, -⟩ := hc
  rw [List.mem_singleton] at hmem
  subst hmem
  rw [timeToSeconds_eval "00:00:05".data 0 0 5 0 (by decide) (by decide)] at hs
  have hs5 := Option.some.inj hs
  norm_num at hs5
  rw [← hs5] at h1
  norm_num at h1

/-- Claim C4 as amended: the validator is reject-only — a caption is
retained (unchanged: no clamping) iff its parsed clip-relative start is
≥ 0, its clip-relative end is ≤ `clipDuration`, and start < end; the
caption's text is never examined. -/
theorem C4_reject_only (captions : List Caption) (st et : ℚ) (c : Caption) :
    c ∈ validatedCaptions captions st et ↔
      c ∈ captions ∧ ∃ s e, timeToSeconds c.start = some s ∧
        timeToSeconds c.stop = some e ∧ s - st ≥ 0 ∧ e - st ≤ et - st ∧
        s - st < e - st :=
  mem_validatedCaptions_iff captions st et c

/-- Claim C5 counterexample: `validatedCaptions` does not sort by start
time: two valid captions supplied in the order (start 5, start 1) come
out in the same order, which is not ascending. -/
theorem C5_not_sorted_counterexample :
    ¬List.Sorted (fun c₁ c₂ : Caption =>
        (timeToSeconds c₁.start).getD 0 ≤ (timeToSeconds c₂.start).getD 0)
      (validatedCaptions
        [Caption.mk "00:00:05".data "00:00:06".data "a".data,
         Caption.mk "00:00:01".data "00:00:02".data "b".data] 0 20) := by
  have h5 : timeToSeconds "00:00:05".data = some 5 := by
    rw [timeToSeconds_eval "00:00:05".data 0 0 5 0 (by decide) (by decide)]
    norm_num
  have h6 : timeToSeconds "00:00:06".data = some 6 := by
    rw [timeToSeconds_eval "00:00:06".data 0 0 6 0 (by decide) (by decide)]
    norm_num
  have h1 : timeToSeconds "00:00:01".data = some 1 := by
    rw [timeToSeconds_eval "00:00:01".data 0 0 1 0 (by decide) (by decide)]
    norm_num
  have h2 : timeToSeconds "00:00:02".data = some 2 := by
    rw [timeToSeconds_eval "00:00:02".data 0 0 2 0 (by decide) (by decide)]
    norm_num
  have hvalA : captionValid 0 (20 - 0)
      (Caption.mk "00:00:05".data "00:00:06".data "a".data) = true := by
    rw [captionValid_iff]
    exact ⟨5, 6, h5, h6, by norm_num, by norm_num, by norm_num⟩
  have hvalB : captionValid 0 (20 - 0)
      (Caption.mk "00:00:01".data "00:00:02".data "b".data) = true := by
    rw [captionValid_iff]
    exact ⟨1, 2, h1, h2, by norm_num, by norm_num, by norm_num⟩
  have heval : validatedCaptions
      [Caption.mk "00:00:05".data "00:00:06".data "a".data,
       Caption.mk "00:00:01".data "00:00:02".data "b".data] 0 20 =
      [Caption.mk "00:00:05".data "00:00:06".data "a".data,
       Caption.mk "00:00:01".data "00:00:02".data "b".data] := by
    unfold validatedCaptions
    rw [if_pos (by decide)]
    simp only [List.filter, hvalA, hvalB]
  intro hsort
  rw [heval] at hsort
  have hrel := (List.sorted_cons.mp hsort).1
    (Caption.mk "00:00:01".data "00:00:02".data "b".data) (by simp)
  simp only [h5, h1, Option.getD_some] at hrel
  norm_num at hrel

/-- Claim C5 as amended: no sorting happens — `validatedCaptions` is an
order-preserving filter of the request's caption array (a sublist), so
the output is in the original request order, ascending only if the input
already was. -/
theorem C5_preserves_request_order (captions : List Caption) (st et : ℚ) :
    (validatedCaptions captions st et).Sublist captions :=
  validatedCaptions_sublist captions st et

/-! ### The filter graph builder -/

/-- The engine input indices referenced by the caption overlay nodes of a
filter list, in list order. -/
def captionOverlayIndices (l : List FilterNode) : List ℕ :=
  l.filterMap fun n =>
    match n with
    | FilterNode.captionOverlay _ i _ _ _ _ _ => some i
    | _ => none

/-- The output pad written by a node. -/
def nodeOutPad : FilterNode → List Char
  | FilterNode.scaleNode _ o => o
  | FilterNode.colorSource _ _ _ _ o => o
  | FilterNode.overlayCentered _ _ _ o => o
  | FilterNode.overlayImage _ _ _ _ o => o
  | FilterNode.captionOverlay _ _ _ _ _ _ o => o
  | FilterNode.nullPass _ o => o
  | FilterNode.acopy o => o

theorem captionNodes_indices (capX capY : ℚ) :
    ∀ (imgs : List CaptionImage) (k total : ℕ) (cur : List Char),
      captionOverlayIndices (captionNodes capX capY imgs k total cur) =
        (List.range imgs.length).map (fun j => 3 + (k + j))
  | [], _, _, _ => by simp [captionNodes, captionOverlayIndices]
  | img :: rest, k, total, cur => by
    have hcons : captionNodes capX capY (img :: rest) k total cur =
        FilterNode.captionOverlay cur (3 + k) capX capY img.startTime
          img.endTime (if k = total - 1 then "final_video".data
            else "with_caption_".data ++ Nat.toDigits 10 k) ::
          captionNodes capX capY rest (k + 1) total
            (if k = total - 1 then "final_video".data
              else "with_caption_".data ++ Nat.toDigits 10 k) := rfl
    have hstep : ∀ (c : List FilterNode) (ip : List Char) (idx : ℕ)
        (x y a b : ℚ) (op : List Char),
        captionOverlayIndices
            (FilterNode.captionOverlay ip idx x y a b op :: c) =
          idx :: captionOverlayIndices c := fun _ _ _ _ _ _ _ _ => rfl
    rw [hcons, hstep]
    rw [captionNodes_indices capX capY rest (k + 1) total _]
    rw [List.length_cons, List.range_succ_eq_map, List.map_cons, List.map_map]
    refine congrArg₂ _ (by omega) ?_
    refine List.map_congr_left fun j hj => ?_
    simp only [Function.comp_apply]
    omega

theorem captionOverlayIndices_append (l₁ l₂ : List FilterNode) :
    captionOverlayIndices (l₁ ++ l₂) =
      captionOverlayIndices l₁ ++ captionOverlayIndices l₂ :=
  List.filterMap_append l₁ l₂ _

/-- Claim C1: for a caption image list of length `k`, the filter list has
exactly `k` caption overlay nodes whose input indices are, in chain
order, `3, 4, …, 3+k-1`, and the input manifest places the i-th caption
image's file at index `3+i`, matching `[video, title, credit,
caption_0 … caption_{k-1}]`. -/
theorem C1_caption_input_indices (captionImgs : List CaptionImage)
    (scale : List Char) (canvasW canvasH : ℕ) (bgColor : List Char)
    (duration videoYPosition : ℚ) (titlePos creditPos captionPos : Rect) :
    captionOverlayIndices (buildFilters captionImgs scale canvasW canvasH
        bgColor duration videoYPosition titlePos creditPos captionPos) =
      (List.range captionImgs.length).map (fun i => 3 + i) ∧
    ∀ i, i < captionImgs.length →
      (inputManifest captionImgs).getD (3 + i) [] =
        (captionImgs.getD i default).path := by
  constructor
  · unfold buildFilters
    rw [captionOverlayIndices_append, captionOverlayIndices_append]
    by_cases h : captionImgs.length > 0
    · rw [if_pos h, captionNodes_indices]
      simp [captionOverlayIndices]
    · rw [if_neg h]
      have h0 : captionImgs.length = 0 := by omega
      rw [h0]
      simp [captionOverlayIndices]
  · intro i hi
    unfold inputManifest
    rw [show 3 + i = i + 1 + 1 + 1 from by omega]
    rw [List.getD_cons_succ, List.getD_cons_succ, List.getD_cons_succ]
    rw [List.getD_eq_getElem?_getD, List.getD_eq_getElem?_getD,
      List.getElem?_map, List.getElem?_eq_getElem hi]
    simp

/-- Witness for C1 with two caption images. -/
theorem C1_caption_input_indices_witness :
    (inputManifest
        [CaptionImage.mk "caption_0.png".data 1 2 "a".data,
         CaptionImage.mk "caption_1.png".data 3 4 "b".data]).getD (3 + 1) [] =
      (([CaptionImage.mk "caption_0.png".data 1 2 "a".data,
         CaptionImage.mk "caption_1.png".data 3 4 "b".data].getD 1
        default)).path :=
  (C1_caption_input_indices
    [CaptionImage.mk "caption_0.png".data 1 2 "a".data,
     CaptionImage.mk "caption_1.png".data 3 4 "b".data]
    "scale=1080:1920".data 1080 1920 "black".data 10 0
    (Rect.mk 180 120 720 200) (Rect.mk 180 1600 720 200)
    (Rect.mk 180 860 720 200)).2 1 (by norm_num)

/-- Claim C2: with zero caption images the filter list still defines the
`final_video` pad: its unique producer is the `null` rename node reading
`with_overlays`, and the unique producer of `with_overlays` is the credit
overlay (engine input 2), so `final_video` derives from the credit
composite. -/
theorem C2_empty_captions_final_video (scale : List Char)
    (canvasW canvasH : ℕ) (bgColor : List Char)
    (duration videoYPosition : ℚ) (titlePos creditPos captionPos : Rect) :
    (buildFilters [] scale canvasW canvasH bgColor duration videoYPosition
        titlePos creditPos captionPos).filter
        (fun n => nodeOutPad n = "final_video".data) =
      [FilterNode.nullPass "with_overlays".data "final_video".data] ∧
    (buildFilters [] scale canvasW canvasH bgColor duration videoYPosition
        titlePos creditPos captionPos).filter
        (fun n => nodeOutPad n = "with_overlays".data) =
      [FilterNode.overlayImage "with_title".data 2 creditPos.x creditPos.y
        "with_overlays".data] := by
  unfold buildFilters
  rw [if_neg (by simp)]
  constructor <;>
    simp [List.filter, nodeOutPad, List.cons_append, List.nil_append,
      show ("processed_video_base".data = "final_video".data) = False by simp,
      show ("bg".data = "final_video".data) = False by simp,
      show ("base".data = "final_video".data) = False by simp,
      show ("with_title".data = "final_video".data) = False by simp,
      show ("with_overlays".data = "final_video".data) = False by simp,
      show ("final_video".data = "final_video".data) = True by simp,
      show ("final_audio".data = "final_video".data) = False by simp,
      show ("processed_video_base".data = "with_overlays".data) = False by simp,
      show ("bg".data = "with_overlays".data) = False by simp,
      show ("base".data = "with_overlays".data) = False by simp,
      show ("with_title".data = "with_overlays".data) = False by simp,
      show ("with_overlays".data = "with_overlays".data) = True by simp,
      show ("final_video".data = "with_overlays".data) = False by simp,
      show ("final_audio".data = "with_overlays".data) = False by simp]

/-- The i-th entry of `captionImages` is built from the i-th validated
caption: file `caption_i.png`, the caption's text, and its clamped
clip-relative window. -/
theorem captionImages_getD (l : List Caption) (st : ℚ) (i : ℕ)
    (hi : i < l.length) :
    (captionImages l st).getD i default =
      { path := "caption_".data ++ Nat.toDigits 10 i ++ ".png".data
        startTime := max 0 ((timeToSeconds (l.getD i default).start).getD 0 - st)
        endTime := max 0 ((timeToSeconds (l.getD i default).stop).getD 0 - st)
        text := (l.getD i default).text } := by
  unfold captionImages
  simp only [List.getD_eq_getElem?_getD, List.getElem?_map, List.getElem?_enum,
    List.getElem?_eq_getElem hi]
  simp

/-- Claim C10: the validated caption list is an order-preserving
subsequence (sublist) of the request's caption array, and caption images
are assigned in exactly that order: the i-th image carries the i-th
validated caption's text and the file name `caption_i.png` (whose index
then feeds engine input `3+i`). -/
theorem C10_order_preserving_subsequence (captions : List Caption)
    (st et : ℚ) :
    (validatedCaptions captions st et).Sublist captions ∧
    (captionImages (validatedCaptions captions st et) st).length =
      (validatedCaptions captions st et).length ∧
    ∀ i, i < (validatedCaptions captions st et).length →
      ((captionImages (validatedCaptions captions st et) st).getD i
          default).text =
        ((validatedCaptions captions st et).getD i default).text ∧
      ((captionImages (validatedCaptions captions st et) st).getD i
          default).path =
        "caption_".data ++ Nat.toDigits 10 i ++ ".png".data := by
  refine ⟨validatedCaptions_sublist captions st et, ?_, ?_⟩
  · unfold captionImages
    rw [List.length_map, List.enum_length]
  · intro i hi
    rw [captionImages_getD _ _ _ hi]
    exact ⟨rfl, rfl⟩

/-- Witness for C10: a single valid caption at position 0. -/
theorem C10_order_preserving_subsequence_witness :
    ((captionImages (validatedCaptions
          [Caption.mk "00:00:01".data "00:00:02".data "hi".data] 0 10) 0).getD
        0 default).text =
      ((validatedCaptions
          [Caption.mk "00:00:01".data "00:00:02".data "hi".data] 0 10).getD
        0 default).text ∧
    ((captionImages (validatedCaptions
          [Caption.mk "00:00:01".data "00:00:02".data "hi".data] 0 10) 0).getD
        0 default).path =
      "caption_".data ++ Nat.toDigits 10 0 ++ ".png".data := by
  refine (C10_order_preserving_subsequence
    [Caption.mk "00:00:01".data "00:00:02".data "hi".data] 0 10).2.2 0 ?_
  have h1 : timeToSeconds "00:00:01".data = some 1 := by
    rw [timeToSeconds_eval "00:00:01".data 0 0 1 0 (by decide) (by decide)]
    norm_num
  have h2 : timeToSeconds "00:00:02".data = some 2 := by
    rw [timeToSeconds_eval "00:00:02".data 0 0 2 0 (by decide) (by decide)]
    norm_num
  have hval : captionValid 0 (10 - 0)
      (Caption.mk "00:00:01".data "00:00:02".data "hi".data) = true := by
    rw [captionValid_iff]
    exact ⟨1, 2, h1, h2, by norm_num, by norm_num, by norm_num⟩
  have heval : validatedCaptions
      [Caption.mk "00:00:01".data "00:00:02".data "hi".data] 0 10 =
      [Caption.mk "00:00:01".data "00:00:02".data "hi".data] := by
    unfold validatedCaptions
    rw [if_pos (by simp)]
    simp only [List.filter, hval]
  rw [heval]
  simp

/-! ### Request time-range validation -/

/-- Claim C9 counterexample: an inverted time range (startTime 10,
endTime 5) is not rejected — validation succeeds, with the range silently
replaced by the default `(10, 10 + 30)`, so rendering work proceeds. -/
theorem C9_inverted_range_not_rejected :
    validateRequest (some "u".data) (some 10) (some 5) =
      Except.ok (10, 40) := by
  simp only [validateRequest, requestStartTime, requestEndTime]
  rw [if_neg (by decide)]
  norm_num

/-- Claim C9 as amended: a request with a usable URL, a valid
`startTime s ≥ 0`, and an `endTime` that is missing, non-numeric, or not
greater than `s` is not rejected: `endTime` is silently replaced by
`s + 30` and validation succeeds with the range `(s, s + 30)`; the
handler rejects only a missing/empty URL or a supplied
`endTime > startTime` making the clip shorter than 1 second. -/
theorem C9_invalid_range_gets_default (url : List Char) (hu : url ≠ [])
    (s : ℚ) (hs : s ≥ 0) (e : Option ℚ) (he : ∀ x, e = some x → ¬x > s) :
    validateRequest (some url) (some s) e = Except.ok (s, s + 30) := by
  have hstart : requestStartTime (some s) = s := by
    rw [show requestStartTime (some s) = if s ≥ 0 then s else 0 from rfl,
      if_pos hs]
  have hend : requestEndTime e s = s + 30 := by
    cases e with
    | none => rfl
    | some x =>
      rw [show requestEndTime (some x) s = if x > s then x else s + 30 from rfl,
        if_neg (he x rfl)]
  simp only [validateRequest]
  rw [hstart, hend]
  rw [if_neg (by simp [hu]), if_neg (by intro h; linarith)]

/-- Witness for the amended C9 at url "u", startTime 10, endTime 5. -/
theorem C9_invalid_range_gets_default_witness :
    validateRequest (some "u".data) (some 10) (some 5) =
      Except.ok (10, 10 + 30) :=
  C9_invalid_range_gets_default "u".data (by decide) 10 (by norm_num)
    (some 5) (fun x hx => by rw [← Option.some.inj hx]; norm_num)

end GenerateVideo
